import Mathlib

/-!
Verification of the presence-accumulation and stamp-awarding engine of
`src/app/main.py` (a Discord attendance bot that awards a once-per-day
"stamp" to members present long enough in a voice channel window).

Shallow embedding conventions:
* instants are `Int` seconds since an epoch; calendar days are obtained by
  floor division by 86400 (`datetime.date` of an instant);
* the Supabase `stamps` table is a `List StampKey` of committed rows
  (append-only);
* the module-level dict `presence_accumulator` is a total function
  `StampKey → Option Int` (`none` = no entry, mirroring absence of the
  dict key; `.get(key, 0)` is `Option.getD 0`);
* each body of the 30-second `presence_checker` loop for one club and one
  guild is the function `clubTick`; its per-member body is `memberStep`.
-/

namespace Rajiotaisou

/-- Instants: seconds since an epoch, in the bot's fixed JST clock. -/
abbrev Instant := Int

/-- `datetime.date()` of an instant: its calendar-day index (floor division,
as Python's `//`). -/
def dayOf (t : Instant) : Int := t.fdiv 86400

/-- `datetime.combine(now.date(), tod)`: midnight of `now`'s day plus a
time-of-day `tod` in seconds. -/
def combineDayStart (now : Instant) (tod : Int) : Instant :=
  86400 * dayOf now + tod

/-- Embedding of `ClubConfig` (main.py lines 60–97): the fields the
monitoring engine reads. `startSec` is `start_time` as seconds after
midnight. -/
structure ClubConfig where
  clubId : String
  name : String
  guildId : Int
  voiceChannelId : Int
  startSec : Int
  windowMinutes : Int
  requiredMinutes : Int
  monitorOffsetMinutes : Int
deriving DecidableEq

/-- `window_timedelta.total_seconds()`. -/
def ClubConfig.windowSeconds (c : ClubConfig) : Int := c.windowMinutes * 60

/-- `int(required_timedelta.total_seconds())`. -/
def ClubConfig.requiredSeconds (c : ClubConfig) : Int := c.requiredMinutes * 60

/-- `monitor_offset_timedelta.total_seconds()`. -/
def ClubConfig.monitorOffsetSeconds (c : ClubConfig) : Int :=
  c.monitorOffsetMinutes * 60

/-- Embedding of `get_today_window_range` (lines 392–400):
`start_dt = datetime.combine(now.date(), club.start_time)`,
`end_dt = start_dt + club.window_timedelta`. -/
def get_today_window_range (club : ClubConfig) (now : Instant) :
    Instant × Instant :=
  let start_dt := combineDayStart now club.startSec
  (start_dt, start_dt + club.windowSeconds)

/-- Embedding of `get_today_monitor_range` (lines 403–412):
`monitor_start = start_window - club.monitor_offset_timedelta`,
`monitor_end = end_window`. -/
def get_today_monitor_range (club : ClubConfig) (now : Instant) :
    Instant × Instant :=
  let wr := get_today_window_range club now
  (wr.1 - club.monitorOffsetSeconds, wr.2)

/-- A row of the `stamps` table, and also a key of `presence_accumulator`
(main.py line 107: `(guild_id, club_id, user_id, date)`). -/
structure StampKey where
  guildId : Int
  clubId : String
  userId : Int
  day : Int
deriving DecidableEq

/-- What one call of the awarder reported (the spec's
"not yet" / "already awarded" / "awarded"). -/
inductive StampResult where
  | notYet
  | alreadyAwarded
  | awarded
deriving DecidableEq

/-- The stamps-table key `record_stamp_if_needed` itself builds from its
arguments (line 223: `user_id`, `club.guild_id`, `club.club_id`, `date`). -/
def recordKey (club : ClubConfig) (userId day : Int) : StampKey :=
  ⟨club.guildId, club.clubId, userId, day⟩

/-- Embedding of `record_stamp_if_needed` (main.py lines 217–245).
Returns (stamps table after the call, reported outcome, whether the
notification message was delivered). If `seconds_in_window` is below the
requirement it returns at once; otherwise it queries the table for an
existing row with the same key and inserts only when none exists. The
notification send sits inside the same `try` as the insert, and the
`except` clause only prints: a notification failure (`notifyOk = false`)
is swallowed after the insert has already executed, with no deletion or
retry of the inserted row. -/
def record_stamp_if_needed (club : ClubConfig) (userId day : Int)
    (secondsInWindow : Int) (store : List StampKey) (notifyOk : Bool) :
    List StampKey × StampResult × Bool :=
  if secondsInWindow < club.requiredSeconds then (store, .notYet, false)
  else if recordKey club userId day ∈ store then (store, .alreadyAwarded, false)
  else (store ++ [recordKey club userId day], .awarded, notifyOk)

/-- A voice-channel member as the checker sees it (`member.id`,
`member.bot`). -/
structure Member where
  id : Int
  bot : Bool
deriving DecidableEq

/-- The mutable state the checker touches: the `presence_accumulator`
dict and the `stamps` table. -/
structure EngineState where
  acc : StampKey → Option Int
  store : List StampKey

/-- Dict assignment `presence_accumulator[key] = v`. -/
def updAcc (f : StampKey → Option Int) (k : StampKey) (v : Int) :
    StampKey → Option Int :=
  fun k2 => if k2 = k then some v else f k2

/-- Per-member body of the `presence_checker` loop (main.py lines 514–530):
skip bots; when `window_start <= now <= window_end`, add 30 seconds to the
accumulator entry keyed by `(guild.id, club.club_id, member.id,
window_start.date())` and invoke `record_stamp_if_needed` with the new
total (the checker's notification path is modelled as succeeding). -/
def memberStep (club : ClubConfig) (guildId : Int) (now ws we : Instant)
    (st : EngineState) (m : Member) : EngineState :=
  if m.bot then st
  else if ws ≤ now ∧ now ≤ we then
    let keyDate := dayOf ws
    let key : StampKey := ⟨guildId, club.clubId, m.id, keyDate⟩
    let seconds := (st.acc key).getD 0 + 30
    ⟨updAcc st.acc key seconds,
     (record_stamp_if_needed club m.id keyDate seconds st.store true).1⟩
  else st

/-- One iteration of `presence_checker` for one club in one guild
(main.py lines 499–530): compute today's monitor and window ranges from
`now`, skip everything when `now` is outside the monitor range, otherwise
run `memberStep` over the channel's current member list. (The 5-minutes-
before notification block touches neither the accumulator nor the stamps
table and is omitted.) -/
def clubTick (club : ClubConfig) (guildId : Int) (now : Instant)
    (members : List Member) (st : EngineState) : EngineState :=
  let mr := get_today_monitor_range club now
  let wr := get_today_window_range club now
  if mr.1 ≤ now ∧ now ≤ mr.2 then
    members.foldl (memberStep club guildId now wr.1 wr.2) st
  else st

/-- A sequence of checker iterations (successive 30-second wakeups of the
`tasks.loop`), each observing the same member list. -/
def runTicks (club : ClubConfig) (guildId : Int) (members : List Member)
    (ticks : List Instant) (st : EngineState) : EngineState :=
  ticks.foldl (fun s t => clubTick club guildId t members s) st

/-- A sequence of direct awarder invocations for one (member, session,
day): each element is the `seconds_in_window` argument and whether the
notification would succeed. -/
def runAwards (club : ClubConfig) (userId day : Int)
    (invs : List (Int × Bool)) (store : List StampKey) : List StampKey :=
  invs.foldl
    (fun s inv => (record_stamp_if_needed club userId day inv.1 s inv.2).1)
    store

/-- Number of committed rows equal to `k` in the stamps table. -/
def countKey (k : StampKey) : List StampKey → Nat
  | [] => 0
  | k2 :: rest => (if k2 = k then 1 else 0) + countKey k rest

/-- The window-start instant the checker computes on day `d`
(`combineDayStart t club.startSec` for any `t` belonging to day `d`). -/
def windowStartOnDay (club : ClubConfig) (d : Int) : Instant :=
  86400 * d + club.startSec

/-! Streak statistics, main.py lines 248–289. The Supabase query and the
`sorted(list(set(...)))` normalisation at line 259 produce the list the
loops below run over, so the embedding takes that list directly. -/

/-- The loop of lines 268–275 computing the longest streak: `prev` is
`dates[i-1]`, `maxS` is `max_streak`, `temp` is `temp_streak`; the final
`max(max_streak, temp_streak)` of line 275 is the nil case. -/
def maxStreakLoop : Int → Nat → Nat → List Int → Nat
  | _, maxS, temp, [] => max maxS temp
  | prev, maxS, temp, d :: rest =>
      if d = prev + 1 then maxStreakLoop d maxS (temp + 1) rest
      else maxStreakLoop d (max maxS temp) 1 rest

/-- The loop of lines 280–285 computing the current streak, which walks
the list from its last element backward and stops at the first
non-consecutive gap; the embedding therefore consumes the reversed list. -/
def currentStreakLoop : List Int → Nat
  | [] => 0
  | [_] => 1
  | d :: d2 :: rest =>
      if d = d2 + 1 then 1 + currentStreakLoop (d2 :: rest) else 1

/-- Embedding of `get_stats_for_user` (lines 248–289) as a function of the
sorted de-duplicated day list and the evaluation date (`date.today()`),
returning `(total, current_streak, max_streak)` in the order of line 289.
Days are calendar-day indexes, so `+ timedelta(days=1)` is `+ 1`. -/
def get_stats_for_user (dates : List Int) (today : Int) : Nat × Nat × Nat :=
  match dates with
  | [] => (0, 0, 0)
  | d :: rest =>
      let total := (d :: rest).length
      let maxS := maxStreakLoop d 0 1 rest
      let last := rest.getLastD d
      let current :=
        if last = today ∨ last = today - 1
        then currentStreakLoop (d :: rest).reverse
        else 0
      (total, current, maxS)

/-- Modelled from the wording of the spec, for comparison with the code:
the lengths of the maximal runs of consecutive calendar days of a list, in
order (a gap of exactly one day continues a run, any other gap starts a
new run of length 1). `prev` is the previous day seen, `cur` the length of
the run in progress. -/
def runLensGo : Int → Nat → List Int → List Nat
  | _, cur, [] => [cur]
  | prev, cur, d :: rest =>
      if d = prev + 1 then runLensGo d (cur + 1) rest
      else cur :: runLensGo d 1 rest

/-- Modelled from the wording of the spec: run lengths of a day list. -/
def runLens : List Int → List Nat
  | [] => []
  | d :: rest => runLensGo d 1 rest

/-- Modelled from the wording of the spec: the length of the longest run
of consecutive calendar days in the list. -/
def longestRun (dates : List Int) : Nat := (runLens dates).foldr max 0

/-- Modelled from the wording of the spec: the length of the consecutive
run ending at the most recent (last) day of the list. -/
def lastRun (dates : List Int) : Nat := (runLens dates).getLastD 0

/-! Club configuration insertion, main.py lines 151–215. -/

/-- A row of the `clubs` table, restricted to the columns the
duplicate-name check reads. -/
structure ClubRow where
  name : String
  guildId : Int
deriving DecidableEq

/-- The existence check of lines 165–166: a `clubs` row with the same name
and guild is already present. -/
def duplicate_club_exists (clubs : List ClubRow) (name : String)
    (guildId : Int) : Bool :=
  clubs.any (fun r => r.name == name && r.guildId == guildId)

/-- Embedding of `add_club_to_db` (lines 151–215), restricted to the
columns and cache keys the duplicate-name claim concerns. In the source,
step 1 raises `ValueError` (duplicate name) when the existence check finds
a row, but that raise sits inside the same `try` block whose
`except Exception` clause merely prints, so the error never leaves the
function and execution continues to the insert of step 3 and the cache
update of step 4 in every case. The `if` below therefore has identical
branches: its condition records what the swallowed check concluded. -/
def add_club_to_db (clubs : List ClubRow) (cache : List (Int × String))
    (name : String) (guildId : Int) :
    List ClubRow × List (Int × String) :=
  if duplicate_club_exists clubs name guildId then
    (clubs ++ [⟨name, guildId⟩], cache ++ [(guildId, name)])
  else
    (clubs ++ [⟨name, guildId⟩], cache ++ [(guildId, name)])

/-! Concrete sample values used by witnesses and counterexamples. -/

/-- A club starting at 11:00 (39600 s), 15-minute window, 1 required
minute, 20-minute monitor offset. -/
def rClub : ClubConfig := ⟨"c", "n", 1, 2, 39600, 15, 1, 20⟩

/-- Same club but with a 100-minute requirement, so that no award
interferes with accumulation experiments. -/
def bClub : ClubConfig := ⟨"c", "n", 1, 2, 39600, 15, 100, 20⟩

/-- Empty dict and empty stamps table. -/
def emptyState : EngineState := ⟨fun _ => none, []⟩

/-- A 30-second tick grid covering 10:40:00 through 11:15:00 inclusive:
the whole monitor range of `rClub`/`bClub` on day 0. -/
def gridTicks : List Instant := (List.range 71).map (fun k => 38400 + 30 * (k : Int))

/-! Helper lemmas. -/

lemma window_range_eq (club : ClubConfig) (now : Instant) :
    get_today_window_range club now =
      (combineDayStart now club.startSec,
       combineDayStart now club.startSec + club.windowSeconds) := rfl

lemma monitor_range_eq (club : ClubConfig) (now : Instant) :
    get_today_monitor_range club now =
      (combineDayStart now club.startSec - club.monitorOffsetSeconds,
       combineDayStart now club.startSec + club.windowSeconds) := rfl

lemma clubTick_eq (club : ClubConfig) (gid : Int) (now : Instant)
    (members : List Member) (st : EngineState) :
    clubTick club gid now members st =
      if combineDayStart now club.startSec - club.monitorOffsetSeconds ≤ now ∧
         now ≤ combineDayStart now club.startSec + club.windowSeconds
      then members.foldl
             (memberStep club gid now (combineDayStart now club.startSec)
               (combineDayStart now club.startSec + club.windowSeconds)) st
      else st := rfl

lemma countKey_append (k : StampKey) (l1 l2 : List StampKey) :
    countKey k (l1 ++ l2) = countKey k l1 + countKey k l2 := by
  induction l1 with
  | nil => simp [countKey]
  | cons a l ih => simp [countKey, ih]; omega

lemma countKey_eq_zero (k : StampKey) (l : List StampKey) (h : k ∉ l) :
    countKey k l = 0 := by
  induction l with
  | nil => rfl
  | cons a l ih =>
      have h1 : a ≠ k := fun he => h (he ▸ List.mem_cons_self a l)
      have h2 : k ∉ l := fun hm => h (List.mem_cons_of_mem a hm)
      simp [countKey, h1, ih h2]

lemma record_store_cases (club : ClubConfig) (userId day secs : Int)
    (store : List StampKey) (nok : Bool) :
    (record_stamp_if_needed club userId day secs store nok).1 = store ∨
    (recordKey club userId day ∉ store ∧
     (record_stamp_if_needed club userId day secs store nok).1 =
       store ++ [recordKey club userId day]) := by
  rcases lt_or_ge secs club.requiredSeconds with h1 | h1
  · left; simp [record_stamp_if_needed, h1]
  · by_cases hm : recordKey club userId day ∈ store
    · left; simp [record_stamp_if_needed, hm, not_lt.mpr h1]
    · right; exact ⟨hm, by simp [record_stamp_if_needed, hm, not_lt.mpr h1]⟩

lemma record_store_of_mem (club : ClubConfig) (userId day secs : Int)
    (store : List StampKey) (nok : Bool)
    (hm : recordKey club userId day ∈ store) :
    (record_stamp_if_needed club userId day secs store nok).1 = store := by
  rcases lt_or_ge secs club.requiredSeconds with h1 | h1
  · simp [record_stamp_if_needed, h1]
  · simp [record_stamp_if_needed, hm, not_lt.mpr h1]

lemma record_countKey_le_one (club : ClubConfig) (userId day secs : Int)
    (store : List StampKey) (nok : Bool) (k : StampKey)
    (h : countKey k store ≤ 1) :
    countKey k (record_stamp_if_needed club userId day secs store nok).1 ≤ 1 := by
  rcases record_store_cases club userId day secs store nok with he | ⟨hm, he⟩
  · rw [he]; exact h
  · rw [he, countKey_append]
    by_cases hk : k = recordKey club userId day
    · subst hk
      rw [countKey_eq_zero _ store hm]
      simp [countKey]
    · have : recordKey club userId day ≠ k := fun he2 => hk he2.symm
      simp [countKey, this]
      exact h

lemma record_store_mem (club : ClubConfig) (userId day secs : Int)
    (store : List StampKey) (nok : Bool) (k : StampKey)
    (hk : k ∈ (record_stamp_if_needed club userId day secs store nok).1) :
    k ∈ store ∨ k = recordKey club userId day := by
  rcases record_store_cases club userId day secs store nok with he | ⟨_, he⟩
  · left; exact he ▸ hk
  · rw [he] at hk
    rcases List.mem_append.mp hk with h1 | h1
    · left; exact h1
    · right; simpa using h1

lemma memberStep_acc (club : ClubConfig) (gid : Int) (now ws we : Instant)
    (st : EngineState) (m : Member) (k : StampKey) :
    (memberStep club gid now ws we st m).acc k =
      if m.bot = false ∧ (ws ≤ now ∧ now ≤ we) ∧
         k = (⟨gid, club.clubId, m.id, dayOf ws⟩ : StampKey)
      then some ((st.acc k).getD 0 + 30)
      else st.acc k := by
  rcases Bool.eq_false_or_eq_true m.bot with hb | hb
  · simp [memberStep, hb]
  · by_cases hw : ws ≤ now ∧ now ≤ we
    · by_cases hk : k = (⟨gid, club.clubId, m.id, dayOf ws⟩ : StampKey)
      · subst hk; simp [memberStep, hb, hw, updAcc]
      · simp [memberStep, hb, hw, hk, updAcc]
    · simp [memberStep, hb, hw]

lemma memberStep_store (club : ClubConfig) (gid : Int) (now ws we : Instant)
    (st : EngineState) (m : Member) :
    (memberStep club gid now ws we st m).store =
      if m.bot = false ∧ (ws ≤ now ∧ now ≤ we)
      then (record_stamp_if_needed club m.id (dayOf ws)
              ((st.acc ⟨gid, club.clubId, m.id, dayOf ws⟩).getD 0 + 30)
              st.store true).1
      else st.store := by
  rcases Bool.eq_false_or_eq_true m.bot with hb | hb
  · simp [memberStep, hb]
  · by_cases hw : ws ≤ now ∧ now ≤ we
    · simp [memberStep, hb, hw]
    · simp [memberStep, hb, hw]

lemma foldl_acc_isSome (club : ClubConfig) (gid : Int) (now ws we : Instant)
    (k : StampKey) :
    ∀ (members : List Member) (st : EngineState),
      (st.acc k).isSome = true →
      (((members.foldl (memberStep club gid now ws we) st).acc k)).isSome = true := by
  intro members
  induction members with
  | nil => intro st h; exact h
  | cons m rest ih =>
      intro st h
      rw [List.foldl_cons]
      apply ih
      rw [memberStep_acc]
      split
      · rfl
      · exact h

lemma foldl_store_count (club : ClubConfig) (gid : Int) (now ws we : Instant)
    (k : StampKey) :
    ∀ (members : List Member) (st : EngineState),
      countKey k st.store ≤ 1 →
      countKey k ((members.foldl (memberStep club gid now ws we) st)).store ≤ 1 := by
  intro members
  induction members with
  | nil => intro st h; exact h
  | cons m rest ih =>
      intro st h
      rw [List.foldl_cons]
      apply ih
      rw [memberStep_store]
      split
      · exact record_countKey_le_one _ _ _ _ _ _ _ h
      · exact h

lemma foldl_acc_ne_day (club : ClubConfig) (gid : Int) (now ws we : Instant)
    (k : StampKey) (hk : k.day ≠ dayOf ws) :
    ∀ (members : List Member) (st : EngineState),
      ((members.foldl (memberStep club gid now ws we) st)).acc k = st.acc k := by
  intro members
  induction members with
  | nil => intro st; rfl
  | cons m rest ih =>
      intro st
      rw [List.foldl_cons, ih]
      rw [memberStep_acc]
      have : k ≠ (⟨gid, club.clubId, m.id, dayOf ws⟩ : StampKey) := by
        intro he; exact hk (by rw [he])
      simp [this]

lemma foldl_bot_invariant (club : ClubConfig) (gid : Int) (now ws we : Instant) :
    ∀ (members : List Member) (st : EngineState) (bid : Int),
      (∀ m ∈ members, m.id = bid → m.bot = true) →
      (∀ k : StampKey, k.userId = bid → st.acc k = none) →
      (∀ k ∈ st.store, k.userId ≠ bid) →
      (∀ k : StampKey, k.userId = bid →
        (members.foldl (memberStep club gid now ws we) st).acc k = none) ∧
      (∀ k ∈ (members.foldl (memberStep club gid now ws we) st).store,
        k.userId ≠ bid) := by
  intro members
  induction members with
  | nil => intro st bid _ hacc hstore; exact ⟨hacc, hstore⟩
  | cons m rest ih =>
      intro st bid hmem hacc hstore
      rw [List.foldl_cons]
      refine ih (memberStep club gid now ws we st m) bid
        (fun m2 hm2 => hmem m2 (List.mem_cons_of_mem m hm2)) ?_ ?_
      · intro k hk
        rw [memberStep_acc]
        rcases Bool.eq_false_or_eq_true m.bot with hb | hb
        · rw [if_neg]
          · exact hacc k hk
          · intro hc
            rw [hc.1] at hb
            exact Bool.false_ne_true hb
        · have hid : m.id ≠ bid := by
            intro he
            have hwit := hmem m (List.mem_cons_self m rest) he
            rw [hb] at hwit
            exact Bool.false_ne_true hwit
          have hkne : k ≠ (⟨gid, club.clubId, m.id, dayOf ws⟩ : StampKey) := by
            intro he
            apply hid
            rw [← hk, he]
          simp only [hkne, and_false, if_false]
          exact hacc k hk
      · intro k hk
        rw [memberStep_store] at hk
        by_cases hcond : m.bot = false ∧ ws ≤ now ∧ now ≤ we
        · rw [if_pos hcond] at hk
          rcases record_store_mem _ _ _ _ _ _ _ hk with h1 | h1
          · exact hstore k h1
          · intro he
            have hid : m.id ≠ bid := by
              intro he2
              have := hmem m (List.mem_cons_self m rest) he2
              rw [hcond.1] at this
              exact Bool.false_ne_true this
            apply hid
            rw [← he, h1, recordKey]
        · rw [if_neg hcond] at hk
          exact hstore k hk

lemma foldl_acc_mono (club : ClubConfig) (gid : Int) (now ws we : Instant)
    (k : StampKey) :
    ∀ (members : List Member) (st : EngineState),
      (st.acc k).getD 0 ≤ ((members.foldl (memberStep club gid now ws we) st).acc k).getD 0 := by
  intro members
  induction members with
  | nil => intro st; exact le_refl _
  | cons m rest ih =>
      intro st
      rw [List.foldl_cons]
      refine le_trans ?_ (ih (memberStep club gid now ws we st m))
      rw [memberStep_acc]
      split
      · simp
      · exact le_refl _

lemma foldr_max_shift (a b : Nat) (L : List Nat) :
    L.foldr max (max a b) = max b (L.foldr max a) := by
  induction L with
  | nil => exact max_comm a b
  | cons x xs ih => simp only [List.foldr_cons, ih, max_left_comm]

lemma maxStreakLoop_eq (rest : List Int) :
    ∀ (prev : Int) (maxS temp : Nat),
      maxStreakLoop prev maxS temp rest = (runLensGo prev temp rest).foldr max maxS := by
  induction rest with
  | nil =>
      intro prev maxS temp
      simp [maxStreakLoop, runLensGo, max_comm]
  | cons d rest ih =>
      intro prev maxS temp
      have hL : maxStreakLoop prev maxS temp (d :: rest) =
          if d = prev + 1 then maxStreakLoop d maxS (temp + 1) rest
          else maxStreakLoop d (max maxS temp) 1 rest := rfl
      have hR : runLensGo prev temp (d :: rest) =
          if d = prev + 1 then runLensGo d (temp + 1) rest
          else temp :: runLensGo d 1 rest := rfl
      by_cases hd : d = prev + 1
      · rw [hL, if_pos hd, hR, if_pos hd, ih]
      · rw [hL, if_neg hd, hR, if_neg hd, ih, List.foldr_cons, foldr_max_shift]

lemma runLensGo_ne_nil (l : List Int) :
    ∀ (prev : Int) (cur : Nat), runLensGo prev cur l ≠ [] := by
  induction l with
  | nil => intro prev cur; simp [runLensGo]
  | cons d rest ih =>
      intro prev cur
      by_cases hd : d = prev + 1
      · rw [runLensGo, if_pos hd]; exact ih d (cur + 1)
      · rw [runLensGo, if_neg hd]; simp

lemma getLastD_irrel {α : Type} (L : List α) (h : L ≠ []) (d1 d2 : α) :
    L.getLastD d1 = L.getLastD d2 := by
  cases L with
  | nil => exact absurd rfl h
  | cons a l => rw [List.getLastD_cons, List.getLastD_cons]

lemma runLensGo_append (xs : List Int) :
    ∀ (prev : Int) (cur : Nat) (b : Int),
      (runLensGo prev cur (xs ++ [b])).getLastD 0 =
        if b = xs.getLastD prev + 1
        then (runLensGo prev cur xs).getLastD 0 + 1
        else 1 := by
  induction xs with
  | nil =>
      intro prev cur b
      by_cases hb : b = prev + 1
      · simp [runLensGo, hb, List.getLastD]
      · simp [runLensGo, hb, List.getLastD]
  | cons x xs ih =>
      intro prev cur b
      have hL : runLensGo prev cur ((x :: xs) ++ [b]) =
          if x = prev + 1 then runLensGo x (cur + 1) (xs ++ [b])
          else cur :: runLensGo x 1 (xs ++ [b]) := rfl
      have hR : runLensGo prev cur (x :: xs) =
          if x = prev + 1 then runLensGo x (cur + 1) xs
          else cur :: runLensGo x 1 xs := rfl
      by_cases hx : x = prev + 1
      · rw [hL, if_pos hx, ih, hR, if_pos hx, List.getLastD_cons]
      · rw [hL, if_neg hx, hR, if_neg hx, List.getLastD_cons,
          List.getLastD_cons, List.getLastD_cons,
          getLastD_irrel _ (runLensGo_ne_nil _ _ _) cur 0,
          getLastD_irrel _ (runLensGo_ne_nil _ _ _) cur 0]
        exact ih x 1 b

lemma lastRun_append (L : List Int) (h : L ≠ []) (b : Int) :
    lastRun (L ++ [b]) =
      if b = L.getLastD 0 + 1 then lastRun L + 1 else 1 := by
  cases L with
  | nil => exact absurd rfl h
  | cons x ys =>
      rw [lastRun, List.cons_append, runLens, runLensGo_append, lastRun, runLens,
        List.getLastD_cons]

lemma getLastD_reverse_head (d : Int) (rest : List Int) :
    ((d :: rest).reverse).getLastD 0 = d := by
  rw [List.getLastD_eq_getLast?, List.getLast?_reverse]
  rfl

lemma currentStreakLoop_eq (L : List Int) (h : L ≠ []) :
    currentStreakLoop L = lastRun L.reverse := by
  induction L with
  | nil => exact absurd rfl h
  | cons d tail ih =>
      cases tail with
      | nil => rfl
      | cons d2 rest =>
          have hrev : (d :: d2 :: rest).reverse = (d2 :: rest).reverse ++ [d] := by
            simp
          rw [currentStreakLoop, hrev,
            lastRun_append _ (by simp) d, getLastD_reverse_head,
            ih (by simp)]
          by_cases hd : d = d2 + 1
          · rw [if_pos hd, if_pos hd, Nat.add_comm]
          · rw [if_neg hd, if_neg hd]

/-! Claim theorems. -/

/-- C7. Window boundary arithmetic: for every session configuration and
current instant the window calculator returns exactly
`windowStart = start` (the configured start time-of-day combined with the
current date), `windowEnd = start + windowDuration`, and
`monitorStart = start − monitorLead` with `monitorEnd = windowEnd`; both
functions are pure total Lean functions, so they have no failure mode. -/
theorem window_boundary_arithmetic (club : ClubConfig) (now : Instant) :
    get_today_window_range club now =
      (combineDayStart now club.startSec,
       combineDayStart now club.startSec + club.windowSeconds) ∧
    get_today_monitor_range club now =
      ((get_today_window_range club now).1 - club.monitorOffsetSeconds,
       (get_today_window_range club now).2) :=
  ⟨rfl, rfl⟩

/-- C9. Notification failure does not roll back an award: the stamps
table produced by `record_stamp_if_needed` is identical whether the
notification succeeds or fails, and in the successful-insert case
(threshold reached, no existing row) the committed row is present in the
table even when the notification fails (the `except` clause only prints;
nothing removes or retries the inserted row). -/
theorem notification_failure_keeps_award (club : ClubConfig)
    (userId day secs : Int) (store : List StampKey) :
    (record_stamp_if_needed club userId day secs store false).1 =
      (record_stamp_if_needed club userId day secs store true).1 ∧
    (club.requiredSeconds ≤ secs →
      recordKey club userId day ∉ store →
      (record_stamp_if_needed club userId day secs store false).1 =
        store ++ [recordKey club userId day]) := by
  constructor
  · rcases lt_or_ge secs club.requiredSeconds with h1 | h1
    · simp [record_stamp_if_needed, h1]
    · by_cases hm : recordKey club userId day ∈ store
      · simp [record_stamp_if_needed, hm, not_lt.mpr h1]
      · simp [record_stamp_if_needed, hm, not_lt.mpr h1]
  · intro hreq hmem
    simp [record_stamp_if_needed, hmem, not_lt.mpr hreq]

/-- Witness for C9: with the sample club (60 s required), 60 s
accumulated and an empty table, the failed-notification call still
commits the row. -/
theorem notification_failure_keeps_award_witness :
    (record_stamp_if_needed rClub 5 0 60 [] false).1 = [recordKey rClub 5 0] := by
  have h := (notification_failure_keeps_award rClub 5 0 60 []).2
    (by decide) (by decide)
  simpa using h

/-- C1. At-most-once award: for one (member, session, day) key and any
sequence of awarder invocations (arbitrary accumulated-seconds arguments
and notification outcomes, covering re-evaluation after the threshold is
reached as well as replays against an empty in-memory ledger), a stamps
table holding at most one row for the key still holds at most one row
afterwards, and when the table already contains the row (the
"already awarded" case) the whole sequence inserts nothing. -/
theorem at_most_once_award (club : ClubConfig) (userId day : Int)
    (invs : List (Int × Bool)) (store : List StampKey)
    (h : countKey (recordKey club userId day) store ≤ 1) :
    countKey (recordKey club userId day)
        (runAwards club userId day invs store) ≤ 1 ∧
    (recordKey club userId day ∈ store →
      runAwards club userId day invs store = store) := by
  induction invs generalizing store with
  | nil => exact ⟨h, fun _ => rfl⟩
  | cons inv rest ih =>
      have hstep : countKey (recordKey club userId day)
          (record_stamp_if_needed club userId day inv.1 store inv.2).1 ≤ 1 :=
        record_countKey_le_one _ _ _ _ _ _ _ h
      constructor
      · exact (ih _ hstep).1
      · intro hmem
        have he : (record_stamp_if_needed club userId day inv.1 store inv.2).1 = store :=
          record_store_of_mem _ _ _ _ _ _ hmem
        show runAwards club userId day rest
            (record_stamp_if_needed club userId day inv.1 store inv.2).1 = store
        rw [he]
        exact (ih store h).2 hmem

/-- Witness for C1: replaying two above-threshold invocations against a
table already holding the row for (member 5, club, day 0) leaves the
table unchanged with a single row. -/
theorem at_most_once_award_witness :
    countKey (recordKey rClub 5 0)
        (runAwards rClub 5 0 [(600, true), (600, false)] [recordKey rClub 5 0]) ≤ 1 ∧
    runAwards rClub 5 0 [(600, true), (600, false)] [recordKey rClub 5 0] =
      [recordKey rClub 5 0] := by
  have h := at_most_once_award rClub 5 0 [(600, true), (600, false)]
    [recordKey rClub 5 0] (by decide)
  exact ⟨h.1, h.2 (by decide)⟩

/-- C8. Monotonic accumulation: one iteration of the checker never
decreases the accumulated-seconds value of any ledger entry — the value
either stays unchanged or grows by 30; hence the value never decreases
between consecutive evaluation ticks. -/
theorem monotonic_accumulation (club : ClubConfig) (gid : Int)
    (now : Instant) (members : List Member) (st : EngineState)
    (k : StampKey) :
    (st.acc k).getD 0 ≤ ((clubTick club gid now members st).acc k).getD 0 := by
  rw [clubTick_eq]
  split
  · exact foldl_acc_mono club gid now _ _ k members st
  · exact le_refl _

/-- Counterexample to C2 as stated: with the sample club (window
11:00–11:15, 60 s required), member 5 reaches the threshold at the
11:00:30 tick and the stamp is committed — yet the ledger entry for
(member 5, club, day 0) is still present with 60 s (nothing in
`record_stamp_if_needed` or the checker deletes it), and the next tick at
11:01:00 accumulates further to 90 s. -/
theorem award_finalization_counterexample :
    ((clubTick rClub 1 39630 [⟨5, false⟩] (clubTick rClub 1 39600 [⟨5, false⟩] emptyState)).store =
      [recordKey rClub 5 0]) ∧
    ((clubTick rClub 1 39630 [⟨5, false⟩] (clubTick rClub 1 39600 [⟨5, false⟩] emptyState)).acc
      ⟨1, "c", 5, 0⟩ = some 60) ∧
    ((clubTick rClub 1 39660 [⟨5, false⟩]
        (clubTick rClub 1 39630 [⟨5, false⟩] (clubTick rClub 1 39600 [⟨5, false⟩] emptyState))).acc
      ⟨1, "c", 5, 0⟩ = some 90) := by
  decide

/-- C2 as amended: a successful stamp award does not remove the ledger
entry — no checker step ever turns an existing accumulator entry into an
absent one, and while the member stays present each in-window tick keeps
adding 30 s to the entry; nevertheless the stamps table never comes to
hold a second row for the key, because the awarder finds the existing row
and inserts nothing. -/
theorem award_does_not_finalize_entry (club : ClubConfig) (gid : Int)
    (now : Instant) (members : List Member) (st : EngineState)
    (k : StampKey) :
    ((st.acc k).isSome = true →
      ((clubTick club gid now members st).acc k).isSome = true) ∧
    (countKey k st.store ≤ 1 →
      countKey k (clubTick club gid now members st).store ≤ 1) ∧
    (∀ m : Member, m.bot = false →
      0 ≤ club.monitorOffsetMinutes →
      combineDayStart now club.startSec ≤ now →
      now ≤ combineDayStart now club.startSec + club.windowSeconds →
      (clubTick club gid now [m] st).acc
          ⟨gid, club.clubId, m.id, dayOf (combineDayStart now club.startSec)⟩ =
        some ((st.acc
          ⟨gid, club.clubId, m.id, dayOf (combineDayStart now club.startSec)⟩).getD 0 + 30)) := by
  refine ⟨?_, ?_, ?_⟩
  · intro h
    rw [clubTick_eq]
    split
    · exact foldl_acc_isSome club gid now _ _ k members st h
    · exact h
  · intro h
    rw [clubTick_eq]
    split
    · exact foldl_store_count club gid now _ _ k members st h
    · exact h
  · intro m hb hoff h1 h2
    have hoffs : (0 : Int) ≤ club.monitorOffsetSeconds := by
      have : (0 : Int) ≤ club.monitorOffsetMinutes * 60 :=
        mul_nonneg hoff (by norm_num)
      simpa [ClubConfig.monitorOffsetSeconds] using this
    rw [clubTick_eq]
    rw [if_pos ⟨by linarith, h2⟩]
    rw [List.foldl_cons, List.foldl_nil, memberStep_acc]
    rw [if_pos ⟨hb, ⟨h1, h2⟩, rfl⟩]

/-- Witness for C2 as amended: starting from the state reached just after
the award (entry at 60 s, one row committed), the next tick keeps the
entry, keeps the table at one row, and accumulates to 90 s. -/
theorem award_does_not_finalize_entry_witness :
    (((clubTick rClub 1 39660 [⟨5, false⟩]
        ⟨updAcc (fun _ => none) ⟨1, "c", 5, 0⟩ 60, [recordKey rClub 5 0]⟩).acc
      ⟨1, "c", 5, 0⟩).isSome = true) ∧
    (countKey ⟨1, "c", 5, 0⟩
      (clubTick rClub 1 39660 [⟨5, false⟩]
        ⟨updAcc (fun _ => none) ⟨1, "c", 5, 0⟩ 60, [recordKey rClub 5 0]⟩).store ≤ 1) ∧
    ((clubTick rClub 1 39660 [⟨5, false⟩]
        ⟨updAcc (fun _ => none) ⟨1, "c", 5, 0⟩ 60, [recordKey rClub 5 0]⟩).acc
      ⟨1, "c", 5, 0⟩ = some 90) := by
  have h := award_does_not_finalize_entry rClub 1 39660 [⟨5, false⟩]
    ⟨updAcc (fun _ => none) ⟨1, "c", 5, 0⟩ 60, [recordKey rClub 5 0]⟩ ⟨1, "c", 5, 0⟩
  refine ⟨h.1 (by decide), h.2.1 (by decide), ?_⟩
  have h3 := h.2.2 ⟨5, false⟩ rfl (by decide) (by decide) (by decide)
  simpa using h3

/-- C10. Bot accounts are excluded: if every channel member carrying a
given user id is flagged as a bot, then a checker iteration starting from
a state with no ledger entry and no committed stamp for that user id ends
in a state that still has no ledger entry and no committed stamp for it —
the `if member.bot: continue` guard runs before both the accumulation and
the awarder call. -/
theorem bots_excluded (club : ClubConfig) (gid : Int) (now : Instant)
    (members : List Member) (st : EngineState) (bid : Int)
    (hmem : ∀ m ∈ members, m.id = bid → m.bot = true)
    (hacc : ∀ k : StampKey, k.userId = bid → st.acc k = none)
    (hstore : ∀ k ∈ st.store, k.userId ≠ bid) :
    (∀ k : StampKey, k.userId = bid →
      (clubTick club gid now members st).acc k = none) ∧
    (∀ k ∈ (clubTick club gid now members st).store, k.userId ≠ bid) := by
  rw [clubTick_eq]
  split
  · exact foldl_bot_invariant club gid now _ _ members st bid hmem hacc hstore
  · exact ⟨hacc, hstore⟩

/-- Witness for C10: a tick at 11:00 with a bot (id 5) and a human
(id 6) in the channel creates no entry and no stamp row for the bot. -/
theorem bots_excluded_witness :
    ((clubTick rClub 1 39600 [⟨5, true⟩, ⟨6, false⟩] emptyState).acc
      ⟨1, "c", 5, 0⟩ = none) ∧
    (∀ k ∈ (clubTick rClub 1 39600 [⟨5, true⟩, ⟨6, false⟩] emptyState).store,
      k.userId ≠ 5) := by
  have h := bots_excluded rClub 1 39600 [⟨5, true⟩, ⟨6, false⟩] emptyState 5
    (by decide) (fun k _ => rfl) (by simp [emptyState])
  exact ⟨h.1 ⟨1, "c", 5, 0⟩ rfl, h.2⟩

/-- C5 as amended: evaluation ticks strictly before `windowStart` or
strictly after `windowEnd` add zero seconds, and over any same-day tick
sequence the accumulated total grows by exactly 30 s per tick lying in
the closed window `[windowStart, windowEnd]` — independent of the
monitor lead, which only gates detection. (As stated the claim fails
only in that a 30 s grid hitting both window boundaries credits
`windowDuration + 30`, not exactly `windowDuration`; it is never
`windowDuration` plus the monitor lead.) -/
theorem in_window_ticks_only (club : ClubConfig) (gid : Int) (m : Member)
    (d : Int) (ticks : List Instant) (st : EngineState)
    (hb : m.bot = false) (hoff : 0 ≤ club.monitorOffsetMinutes)
    (hd : ∀ t ∈ ticks, dayOf t = d) :
    ((runTicks club gid [m] ticks st).acc
        ⟨gid, club.clubId, m.id, dayOf (windowStartOnDay club d)⟩).getD 0 =
      (st.acc ⟨gid, club.clubId, m.id, dayOf (windowStartOnDay club d)⟩).getD 0 +
      30 * ((ticks.countP (fun t =>
          decide (windowStartOnDay club d ≤ t ∧
                  t ≤ windowStartOnDay club d + club.windowSeconds))) : Int) := by
  induction ticks generalizing st with
  | nil => simp [runTicks]
  | cons t rest ih =>
      have hdt : dayOf t = d := hd t (List.mem_cons_self t rest)
      have hdr : ∀ u ∈ rest, dayOf u = d :=
        fun u hu => hd u (List.mem_cons_of_mem t hu)
      have hws : combineDayStart t club.startSec = windowStartOnDay club d := by
        simp [combineDayStart, windowStartOnDay, hdt]
      have hrun : runTicks club gid [m] (t :: rest) st =
          runTicks club gid [m] rest (clubTick club gid t [m] st) := rfl
      rw [hrun]
      have hoffs : (0 : Int) ≤ club.monitorOffsetSeconds := by
        have hnn : (0 : Int) ≤ club.monitorOffsetMinutes * 60 :=
          mul_nonneg hoff (by norm_num)
        simpa [ClubConfig.monitorOffsetSeconds] using hnn
      by_cases hw : windowStartOnDay club d ≤ t ∧
          t ≤ windowStartOnDay club d + club.windowSeconds
      · have hacc : (clubTick club gid t [m] st).acc
            ⟨gid, club.clubId, m.id, dayOf (windowStartOnDay club d)⟩ =
            some ((st.acc
              ⟨gid, club.clubId, m.id, dayOf (windowStartOnDay club d)⟩).getD 0 + 30) := by
          rw [clubTick_eq, hws, if_pos ⟨by linarith [hw.1], hw.2⟩,
            List.foldl_cons, List.foldl_nil, memberStep_acc,
            if_pos ⟨hb, hw, rfl⟩]
        have hdec : (decide (windowStartOnDay club d ≤ t ∧
            t ≤ windowStartOnDay club d + club.windowSeconds)) = true := by
          simpa using hw
        rw [ih _ hdr, hacc, List.countP_cons, hdec, if_pos rfl]
        simp only [Option.getD_some]
        push_cast
        ring
      · have hacc : (clubTick club gid t [m] st).acc
            ⟨gid, club.clubId, m.id, dayOf (windowStartOnDay club d)⟩ =
            st.acc ⟨gid, club.clubId, m.id, dayOf (windowStartOnDay club d)⟩ := by
          rw [clubTick_eq, hws]
          split
          · rw [List.foldl_cons, List.foldl_nil, memberStep_acc, if_neg]
            intro hc
            exact hw hc.2.1
          · rfl
        rw [ih _ hdr, hacc]
        simp only [List.countP_cons]
        have hwf : (decide (windowStartOnDay club d ≤ t ∧
            t ≤ windowStartOnDay club d + club.windowSeconds)) = false := by
          simpa using hw
        rw [hwf]
        simp

/-- Witness for C5 as amended: four ticks on day 0, two of them inside
the 11:00–11:15 window (11:00:00 and 11:15:00) and two outside (10:59:50
and 11:15:30), accumulate exactly 60 seconds. -/
theorem in_window_ticks_only_witness :
    ((runTicks bClub 1 [⟨5, false⟩] [39590, 39600, 40500, 40530] emptyState).acc
      ⟨1, bClub.clubId, 5, dayOf (windowStartOnDay bClub 0)⟩).getD 0 = 60 := by
  have h := in_window_ticks_only bClub 1 ⟨5, false⟩ 0
    [39590, 39600, 40500, 40530] emptyState rfl (by decide) (by decide)
  rw [h]
  decide

set_option maxRecDepth 4000

/-- Counterexample to C5 as stated: member 5 is present at every
30-second tick from monitorStart (10:40:00) through windowEnd (11:15:00)
of `bClub`. The checker credits 30 s at each of the 31 ticks lying in the
closed window [11:00:00, 11:15:00], totalling 930 s — not exactly the
900 s window duration the claim demands (and also not windowDuration
plus the 1200 s monitor lead). -/
theorem window_clamp_counterexample :
    ((runTicks bClub 1 [⟨5, false⟩] gridTicks emptyState).acc
      ⟨1, "c", 5, 0⟩ = some 930) ∧
    bClub.windowSeconds = 900 ∧
    bClub.monitorOffsetSeconds = 1200 ∧
    (930 : Int) ≠ 900 := by
  decide

/-- Counterexample to C6 as stated: after a day-0 in-window tick creates
the entry (member 5, club, day 0) with 30 s, the first evaluation of
day 1 (at 11:00:30 of the next day) does not discard it — the entry is
still present with 30 s, because no rollover clearing exists in the
checker. -/
theorem daily_rollover_counterexample :
    dayOf 39630 = 0 ∧
    dayOf (86400 + 39630) = 1 ∧
    ((clubTick rClub 1 (86400 + 39630) [⟨5, false⟩]
        (clubTick rClub 1 39630 [⟨5, false⟩] emptyState)).acc
      ⟨1, "c", 5, 0⟩ = some 30) := by
  decide

/-- C6 as amended: ledger entries from previous days are never discarded
(the checker has no rollover clearing), but because the ledger key
includes the calendar day, an evaluation tick neither reads nor writes
any entry whose day differs from the day of the window it computes, and
the new day starts from zero accumulated seconds: the first in-window
tick of a day turns an absent entry into exactly 30 s. -/
theorem daily_rollover_isolation (club : ClubConfig) (gid : Int)
    (members : List Member) (now : Instant) (st : EngineState)
    (k : StampKey) :
    (k.day ≠ dayOf (combineDayStart now club.startSec) →
      (clubTick club gid now members st).acc k = st.acc k) ∧
    (∀ m : Member, m.bot = false →
      0 ≤ club.monitorOffsetMinutes →
      combineDayStart now club.startSec ≤ now →
      now ≤ combineDayStart now club.startSec + club.windowSeconds →
      st.acc ⟨gid, club.clubId, m.id, dayOf (combineDayStart now club.startSec)⟩ = none →
      (clubTick club gid now [m] st).acc
          ⟨gid, club.clubId, m.id, dayOf (combineDayStart now club.startSec)⟩ =
        some 30) := by
  constructor
  · intro hk
    rw [clubTick_eq]
    split
    · exact foldl_acc_ne_day club gid now _ _ k hk members st
    · rfl
  · intro m hb hoff h1 h2 hnone
    have hoffs : (0 : Int) ≤ club.monitorOffsetSeconds := by
      have hnn : (0 : Int) ≤ club.monitorOffsetMinutes * 60 :=
        mul_nonneg hoff (by norm_num)
      simpa [ClubConfig.monitorOffsetSeconds] using hnn
    rw [clubTick_eq, if_pos ⟨by linarith, h2⟩, List.foldl_cons, List.foldl_nil,
      memberStep_acc, if_pos ⟨hb, ⟨h1, h2⟩, rfl⟩, hnone]
    rfl

/-- Witness for C6 as amended: a day-0 entry holding 400 s is untouched
by a day-1 evaluation tick, and that same tick starts the fresh day-1
entry at exactly 30 s. -/
theorem daily_rollover_isolation_witness :
    ((clubTick rClub 1 (86400 + 39630) [⟨5, false⟩]
        ⟨updAcc (fun _ => none) ⟨1, "c", 5, 0⟩ 400, []⟩).acc
      ⟨1, "c", 5, 0⟩ = some 400) ∧
    ((clubTick rClub 1 (86400 + 39630) [⟨5, false⟩]
        ⟨updAcc (fun _ => none) ⟨1, "c", 5, 0⟩ 400, []⟩).acc
      ⟨1, "c", 5, 1⟩ = some 30) := by
  constructor
  · have h := (daily_rollover_isolation rClub 1 [⟨5, false⟩] (86400 + 39630)
      ⟨updAcc (fun _ => none) ⟨1, "c", 5, 0⟩ 400, []⟩ ⟨1, "c", 5, 0⟩).1 (by decide)
    exact h.trans (by decide)
  · have h := (daily_rollover_isolation rClub 1 [⟨5, false⟩] (86400 + 39630)
      ⟨updAcc (fun _ => none) ⟨1, "c", 5, 0⟩ 400, []⟩ ⟨1, "c", 5, 1⟩).2
      ⟨5, false⟩ rfl (by decide) (by decide) (by decide) (by decide)
    simpa using h

/-- Counterexample to C4 as stated: at `dates = [1]` and evaluation date
`0`, the most recent day (1, i.e. tomorrow) is not strictly before
yesterday (−1), so the claim requires `currentStreak` to equal the length
of the run ending at the most recent day, which is 1 — but the code
returns `currentStreak = 0`, because its condition demands the most
recent day to be exactly today or exactly yesterday. -/
theorem streak_future_day_counterexample :
    (¬ ((1 : Int) < 0 - 1)) ∧
    lastRun [1] = 1 ∧
    get_stats_for_user [1] 0 = (1, 0, 1) := by
  decide

/-- C4 as amended: for the empty day list the statistics are (0, 0, 0);
for every non-empty list the function returns total = the number of
days, longestStreak = the length of the longest run of consecutive days
(one-day gaps continue a run, any other gap starts a new run at 1), and
currentStreak = 0 when the most recent day is neither the evaluation
date nor the day before it (in particular also when it lies in the
future), otherwise the length of the consecutive run ending at the most
recent day. In particular days [D−4 .. D] evaluated at D give
(5, 5, 5). -/
theorem streak_statistics :
    (∀ today : Int, get_stats_for_user [] today = (0, 0, 0)) ∧
    (∀ (d : Int) (rest : List Int) (today : Int),
      get_stats_for_user (d :: rest) today =
        ((d :: rest).length,
         if rest.getLastD d = today ∨ rest.getLastD d = today - 1
         then lastRun (d :: rest) else 0,
         longestRun (d :: rest))) ∧
    get_stats_for_user [0, 1, 2, 3, 4] 4 = (5, 5, 5) := by
  refine ⟨fun today => rfl, fun d rest today => ?_, by decide⟩
  have h1 : maxStreakLoop d 0 1 rest = longestRun (d :: rest) := by
    rw [maxStreakLoop_eq]
    rfl
  have h2 : currentStreakLoop (d :: rest).reverse = lastRun (d :: rest) := by
    rw [currentStreakLoop_eq ((d :: rest).reverse) (by simp),
      List.reverse_reverse]
  simp only [get_stats_for_user]
  rw [h1, h2]

/-- C3 is a bug in the code: the duplicate-name check of
`add_club_to_db` concludes "duplicate" for a second club named
"morning" in guild 1, yet the function still appends a second `clubs`
row and a second cache entry, because the `ValueError` it raises is
swallowed by the enclosing `except Exception` clause (whose purpose was
to guard the select) instead of propagating to the `add_club` command
handler that explicitly catches `ValueError` to report it. -/
theorem duplicate_club_insert_bug :
    duplicate_club_exists [⟨"morning", 1⟩] ("morning") 1 = true ∧
    add_club_to_db [⟨"morning", 1⟩] [(1, "morning")] ("morning") 1 =
      ([⟨"morning", 1⟩, ⟨"morning", 1⟩],
       [(1, "morning"), (1, "morning")]) := by
  decide

end Rajiotaisou
